import Mathlib

/-!
A shallow embedding of the track/segment traversal engine in
src/TraverseTracks.cpp (the TraverseTracks class of an MOC transport
solver), together with the external collaborator interfaces it consumes
(TrackGenerator, Track, segment, MOCKernel), which are declared outside
the given source file and are therefore modelled from the specification.

The engine's observable behaviour is the sequence of calls it makes:
kernel->newTrack(track), kernel->execute(the five segment fields), and
onTrack(track, segments).  Each traversal entry point is embedded as a
pure function from the store (and the optional kernel) to the list of
these events, in program order.  Under explicit 2D segment formation --
the only mode the dispatch handles -- segment sequences are precomputed
and are not modified during a traversal, so the control flow of the
loops does not depend on the kernel's internal behaviour, and the trace
is fully determined by the store and by whether a kernel is present.
The sequential trace realises the canonical schedule: the OpenMP
worksharing pragmas distribute iterations of the inner loops, and the
loop over parallel groups is sequential with an implicit barrier, which
the concatenation order of the trace reflects.
-/

namespace OpenMOC

/-- Modelled from the spec: the segment-formation mode enumeration
(declared in a header that is not part of the given source).  The spec
defines one variant, explicit 2D, and stipulates that the dispatch
switch is open ended: a mode value other than EXPLICIT_2D can reach the
switch and then matches no case.  OTHER stands for any such
unrecognized value. -/
inductive segmentationType where
  | EXPLICIT_2D
  | OTHER
deriving DecidableEq, Repr

/-- Modelled from the spec: one segment record, with exactly the five
fields the kernel consumes (spec section 3).  The material reference is
modelled by an identifier. -/
structure segment where
  _length : Int
  _material : Nat
  _region_id : Int
  _cmfd_surface_fwd : Int
  _cmfd_surface_bwd : Int
deriving DecidableEq, Repr

instance : Inhabited segment := ⟨⟨0, 0, 0, 0, 0⟩⟩

/-- Modelled from the spec: a Track is an ordered sequence of segments
plus identity metadata (spec section 3); uid models the track's
identity (the C++ object's address), so that distinct tracks with equal
segment data stay distinguishable. -/
structure Track where
  uid : Nat
  segments : List segment
deriving DecidableEq, Repr

instance : Inhabited Track := ⟨⟨0, []⟩⟩

/-- Track::getNumSegments. -/
def Track.getNumSegments (t : Track) : Nat := t.segments.length

/-- Track::getSegment(s). -/
def Track.getSegment (t : Track) (s : Nat) : segment := t.segments.getD s default

/-- Track::getSegments. -/
def Track.getSegments (t : Track) : List segment := t.segments

/-- Modelled from the spec: the Track Store interface the engine
consumes (spec section 6): 2D track array indexed by azimuthal angle
and position, azimuthal angle count, per-angle track counts, flattened
track array in parallel-group order, group count and per-group sizes,
and the segment-formation mode. -/
structure TrackGenerator where
  num_azim : Nat
  num_x : Nat → Nat
  num_y : Nat → Nat
  tracks_2D : Nat → Nat → Track
  tracks_by_parallel_group : Nat → Track
  num_parallel_track_groups : Nat
  num_tracks_by_parallel_group : Nat → Nat
  segment_formation : segmentationType

def TrackGenerator.getNumAzim (tg : TrackGenerator) : Nat := tg.num_azim

def TrackGenerator.getNumX (tg : TrackGenerator) (a : Nat) : Nat := tg.num_x a

def TrackGenerator.getNumY (tg : TrackGenerator) (a : Nat) : Nat := tg.num_y a

def TrackGenerator.getTracks (tg : TrackGenerator) : Nat → Nat → Track := tg.tracks_2D

def TrackGenerator.getTracksByParallelGroup (tg : TrackGenerator) : Nat → Track :=
  tg.tracks_by_parallel_group

def TrackGenerator.getNumParallelTrackGroups (tg : TrackGenerator) : Nat :=
  tg.num_parallel_track_groups

def TrackGenerator.getNumTracksByParallelGroup (tg : TrackGenerator) (i : Nat) : Nat :=
  tg.num_tracks_by_parallel_group i

def TrackGenerator.getSegmentFormation (tg : TrackGenerator) : segmentationType :=
  tg.segment_formation

/-- One observable call made by the traversal engine: the MOCKernel's
two capabilities (newTrack, and execute with exactly the five segment
fields passed at TraverseTracks.cpp lines 144-145) and the per-track
hook onTrack(track, segments). -/
inductive Event where
  | newTrack (track : Track)
  | execute (length : Int) (material : Nat) (region_id : Int)
      (cmfd_surface_fwd : Int) (cmfd_surface_bwd : Int)
  | onTrack (track : Track) (segments : List segment)
deriving DecidableEq, Repr

/-- An MOCKernel argument: the engine only ever tests the pointer
against NULL and calls its two virtual methods, which the trace
records, so the kernel is embedded by its presence (some for a non-null
pointer, none for NULL). -/
abbrev MOCKernelPtr := Option Unit

/-- The TraverseTracks engine state: the bound TrackGenerator and the
segment-formation mode cached by the constructor. -/
structure TraverseTracks where
  _track_generator : TrackGenerator
  _segment_formation : segmentationType

/-- TraverseTracks::TraverseTracks (lines 7-14): save the track
generator and cache its segment-formation mode. -/
def TraverseTracks.init (track_generator : TrackGenerator) : TraverseTracks :=
  { _track_generator := track_generator
    _segment_formation := track_generator.getSegmentFormation }

/-- TraverseTracks::traceSegmentsExplicit (lines 141-147): loop over
the track's segments by ascending index, calling kernel->execute with
the five fields of each segment.  (The kernel pointer dereference is
modelled separately below.) -/
def traceSegmentsExplicit (track : Track) : List Event :=
  (List.range track.getNumSegments).map (fun s =>
    let seg := track.getSegment s
    Event.execute seg._length seg._material seg._region_id
      seg._cmfd_surface_fwd seg._cmfd_surface_bwd)

/-- The per-track loop body shared verbatim by the two 2D loops
(lines 76-87 and 118-128): if a kernel is present, call
kernel->newTrack(track) and then traceSegmentsExplicit; in all cases
fetch the track's segments afterwards and call onTrack on them. -/
def trackBody (kernel : MOCKernelPtr) (track : Track) : List Event :=
  (if kernel.isSome then
    Event.newTrack track :: traceSegmentsExplicit track
  else []) ++ [Event.onTrack track track.getSegments]

/-- TraverseTracks::loopOverTracks2D (lines 66-89): for each azimuthal
angle a below num_azim / 2, for each position i below
getNumX(a) + getNumY(a), run the loop body on tracks_2D[a][i]. -/
def TraverseTracks.loopOverTracks2D (tt : TraverseTracks) (kernel : MOCKernelPtr) :
    List Event :=
  (List.range (tt._track_generator.getNumAzim / 2)).flatMap (fun a =>
    (List.range (tt._track_generator.getNumX a + tt._track_generator.getNumY a)).flatMap
      (fun i => trackBody kernel (tt._track_generator.getTracks a i)))

/-- The group loop of TraverseTracks::loopOverTracksByParallelGroup2D
(lines 107-130), over the list of remaining group indices; min_track
carries the running lower bound (the code's min_track is the previous
max_track, and max_track is min_track plus the group size). -/
def parallelGroupLoop (tg : TrackGenerator) (kernel : MOCKernelPtr) :
    List Nat → Nat → List Event
  | [], _ => []
  | i :: rest, min_track =>
    (List.range' min_track (tg.getNumTracksByParallelGroup i)).flatMap (fun track_id =>
      trackBody kernel (tg.getTracksByParallelGroup track_id))
    ++ parallelGroupLoop tg kernel rest (min_track + tg.getNumTracksByParallelGroup i)

/-- TraverseTracks::loopOverTracksByParallelGroup2D (lines 99-131). -/
def TraverseTracks.loopOverTracksByParallelGroup2D (tt : TraverseTracks)
    (kernel : MOCKernelPtr) : List Event :=
  parallelGroupLoop tt._track_generator kernel
    (List.range tt._track_generator.getNumParallelTrackGroups) 0

/-- TraverseTracks::loopOverTracks (lines 32-38): switch on the cached
segment-formation mode; only EXPLICIT_2D has a case, any other value
falls through the switch and nothing happens. -/
def TraverseTracks.loopOverTracks (tt : TraverseTracks) (kernel : MOCKernelPtr) :
    List Event :=
  match tt._segment_formation with
  | segmentationType.EXPLICIT_2D => tt.loopOverTracks2D kernel
  | segmentationType.OTHER => []

/-- TraverseTracks::loopOverTracksByParallelGroup (lines 50-56): same
dispatch as loopOverTracks. -/
def TraverseTracks.loopOverTracksByParallelGroup (tt : TraverseTracks)
    (kernel : MOCKernelPtr) : List Event :=
  match tt._segment_formation with
  | segmentationType.EXPLICIT_2D => tt.loopOverTracksByParallelGroup2D kernel
  | segmentationType.OTHER => []

/-- The tracks enumerated by loopOverTracks2D, in visit order: angle
index ascending over the first half of the azimuthal angles, position
index ascending within an angle. -/
def trackList2D (tg : TrackGenerator) : List Track :=
  (List.range (tg.getNumAzim / 2)).flatMap (fun a =>
    (List.range (tg.getNumX a + tg.getNumY a)).map (fun i => tg.getTracks a i))

/-- Total number of tracks covered by the parallel groups. -/
def groupTotal (tg : TrackGenerator) : Nat :=
  ((List.range tg.getNumParallelTrackGroups).map tg.getNumTracksByParallelGroup).sum

/-- The tracks enumerated by loopOverTracksByParallelGroup2D, in visit
order: the flattened parallel-group array over all group ranges. -/
def trackListByGroup (tg : TrackGenerator) : List Track :=
  (List.range (groupTotal tg)).map tg.getTracksByParallelGroup

/-- First global track id of parallel group g: the sum of the sizes of
the preceding groups. -/
def groupStart (tg : TrackGenerator) (g : Nat) : Nat :=
  ((List.range g).map tg.getNumTracksByParallelGroup).sum

/-- The events produced while parallel group g is processed. -/
def groupTrace (tg : TrackGenerator) (kernel : MOCKernelPtr) (g : Nat) : List Event :=
  (List.range' (groupStart tg g) (tg.getNumTracksByParallelGroup g)).flatMap
    (fun track_id => trackBody kernel (tg.getTracksByParallelGroup track_id))

/-- The two entry points, selected by a flag (byGroup is true for
loopOverTracksByParallelGroup), on a freshly constructed engine. -/
def entryTrace (tg : TrackGenerator) (byGroup : Bool) (kernel : MOCKernelPtr) :
    List Event :=
  if byGroup then (TraverseTracks.init tg).loopOverTracksByParallelGroup kernel
  else (TraverseTracks.init tg).loopOverTracks kernel

/-- The visit order of tracks for each entry point. -/
def entryOrder (tg : TrackGenerator) (byGroup : Bool) : List Track :=
  if byGroup then trackListByGroup tg else trackList2D tg

/-- The (track, segment) pairs consumed by the kernel along a trace:
each execute event is attributed to the track of the most recent
newTrack event, and its five fields are exactly one segment record. -/
def visitedPairs : List Event → Option Track → List (Track × segment)
  | [], _ => []
  | Event.newTrack t :: rest, _ => visitedPairs rest (some t)
  | Event.execute l m r f b :: rest, some t => (t, ⟨l, m, r, f, b⟩) :: visitedPairs rest (some t)
  | Event.execute _ _ _ _ _ :: rest, none => visitedPairs rest none
  | Event.onTrack _ _ :: rest, cur => visitedPairs rest cur

/-- The current-track state after scanning a trace (the track of the
last newTrack event, if any). -/
def curTrack : List Event → Option Track → Option Track
  | [], c => c
  | Event.newTrack t :: rest, _ => curTrack rest (some t)
  | Event.execute _ _ _ _ _ :: rest, c => curTrack rest c
  | Event.onTrack _ _ :: rest, c => curTrack rest c

/-- The tracks passed to the per-track hook, in order. -/
def onTrackList (tr : List Event) : List Track :=
  tr.filterMap (fun e => match e with
    | Event.onTrack t _ => some t
    | _ => none)

/-- Whether an event is a call into the kernel (newTrack or execute). -/
def Event.isKernelCall : Event → Bool
  | Event.newTrack _ => true
  | Event.execute _ _ _ _ _ => true
  | Event.onTrack _ _ => false

/-- The kernel consumption attributed to one track visit: all the
track's segments paired with it when a kernel is present, nothing
otherwise. -/
def pairsOf (kernel : MOCKernelPtr) (t : Track) : List (Track × segment) :=
  if kernel.isSome then t.getSegments.map (fun s => (t, s)) else []

/-- Sequencing of an optional-result body over an index list: none as
soon as one element's body is none.  This is the Option-valued image of
the loops below, used to make the kernel pointer dereferences
explicit. -/
def optFlatMap : List α → (α → Option (List β)) → Option (List β)
  | [], _ => some []
  | a :: l, f => match f a, optFlatMap l f with
    | some es, some rest => some (es ++ rest)
    | _, _ => none

/-- kernel->newTrack(track): dereferences the kernel pointer; none
models a null-pointer dereference. -/
def kernelNewTrack : MOCKernelPtr → Track → Option Event
  | none, _ => none
  | some _, track => some (Event.newTrack track)

/-- traceSegmentsExplicit with the kernel->execute dereference made
explicit: each loop iteration dereferences the kernel pointer. -/
def traceSegmentsExplicitDeref (track : Track) (kernel : MOCKernelPtr) :
    Option (List Event) :=
  optFlatMap (List.range track.getNumSegments) (fun s =>
    let seg := track.getSegment s
    match kernel with
    | none => none
    | some _ => some [Event.execute seg._length seg._material seg._region_id
        seg._cmfd_surface_fwd seg._cmfd_surface_bwd])

/-- The shared loop body with kernel dereferences explicit: the guard
on kernel being non-null is the source's (lines 79 and 121), and inside
it kernel->newTrack and the per-segment kernel->execute calls each
dereference the pointer. -/
def trackBodyDeref (kernel : MOCKernelPtr) (track : Track) : Option (List Event) :=
  if kernel.isSome then
    match kernelNewTrack kernel track, traceSegmentsExplicitDeref track kernel with
    | some e, some es => some ((e :: es) ++ [Event.onTrack track track.getSegments])
    | _, _ => none
  else some [Event.onTrack track track.getSegments]

/-- loopOverTracks2D with kernel dereferences explicit. -/
def TraverseTracks.loopOverTracks2DDeref (tt : TraverseTracks) (kernel : MOCKernelPtr) :
    Option (List Event) :=
  optFlatMap (List.range (tt._track_generator.getNumAzim / 2)) (fun a =>
    optFlatMap
      (List.range (tt._track_generator.getNumX a + tt._track_generator.getNumY a))
      (fun i => trackBodyDeref kernel (tt._track_generator.getTracks a i)))

/-- The parallel-group loop with kernel dereferences explicit. -/
def parallelGroupLoopDeref (tg : TrackGenerator) (kernel : MOCKernelPtr) :
    List Nat → Nat → Option (List Event)
  | [], _ => some []
  | i :: rest, min_track =>
    match
      optFlatMap (List.range' min_track (tg.getNumTracksByParallelGroup i))
        (fun track_id => trackBodyDeref kernel (tg.getTracksByParallelGroup track_id)),
      parallelGroupLoopDeref tg kernel rest (min_track + tg.getNumTracksByParallelGroup i)
    with
    | some es, some rest2 => some (es ++ rest2)
    | _, _ => none

/-- loopOverTracksByParallelGroup2D with kernel dereferences explicit. -/
def TraverseTracks.loopOverTracksByParallelGroup2DDeref (tt : TraverseTracks)
    (kernel : MOCKernelPtr) : Option (List Event) :=
  parallelGroupLoopDeref tt._track_generator kernel
    (List.range tt._track_generator.getNumParallelTrackGroups) 0

/-- loopOverTracks with kernel dereferences explicit. -/
def TraverseTracks.loopOverTracksDeref (tt : TraverseTracks) (kernel : MOCKernelPtr) :
    Option (List Event) :=
  match tt._segment_formation with
  | segmentationType.EXPLICIT_2D => tt.loopOverTracks2DDeref kernel
  | segmentationType.OTHER => some []

/-- loopOverTracksByParallelGroup with kernel dereferences explicit. -/
def TraverseTracks.loopOverTracksByParallelGroupDeref (tt : TraverseTracks)
    (kernel : MOCKernelPtr) : Option (List Event) :=
  match tt._segment_formation with
  | segmentationType.EXPLICIT_2D => tt.loopOverTracksByParallelGroup2DDeref kernel
  | segmentationType.OTHER => some []

/-- Six concrete tracks for a small explicit-2D store: two azimuthal
angles in use, three tracks per angle; the last track has an empty
segment sequence. -/
def wTracks : List Track :=
  [⟨0, [⟨1, 10, 100, 5, 6⟩, ⟨2, 11, 101, 7, 8⟩]⟩,
   ⟨1, [⟨3, 12, 102, 9, 10⟩]⟩,
   ⟨2, [⟨4, 13, 103, 11, 12⟩]⟩,
   ⟨3, [⟨5, 14, 104, 13, 14⟩]⟩,
   ⟨4, [⟨6, 15, 105, 15, 16⟩]⟩,
   ⟨5, []⟩]

/-- A small well-formed explicit-2D store: 4 azimuthal angles (so the
first 2 are used), getNumX(a) + getNumY(a) = 3 tracks per angle, and
two parallel groups of sizes 2 and 4 whose flattened array lists the
same six tracks in reverse order. -/
def wStore : TrackGenerator :=
  { num_azim := 4
    num_x := fun _ => 1
    num_y := fun _ => 2
    tracks_2D := fun a i => wTracks.getD (3 * a + i) default
    tracks_by_parallel_group := fun track_id => wTracks.getD (5 - track_id) default
    num_parallel_track_groups := 2
    num_tracks_by_parallel_group := fun i => if i = 0 then 2 else 4
    segment_formation := segmentationType.EXPLICIT_2D }

/-- The store of the parallel-group scenario: 2 parallel groups of
sizes 4 and 5, nine tracks with ids 0 through 8 in group order. -/
def sStore : TrackGenerator :=
  { num_azim := 0
    num_x := fun _ => 0
    num_y := fun _ => 0
    tracks_2D := fun _ _ => default
    tracks_by_parallel_group := fun track_id => ⟨track_id, []⟩
    num_parallel_track_groups := 2
    num_tracks_by_parallel_group := fun i => if i = 0 then 4 else 5
    segment_formation := segmentationType.EXPLICIT_2D }

/-- The small store with an unrecognized segment-formation mode. -/
def badStore : TrackGenerator :=
  { wStore with segment_formation := segmentationType.OTHER }

/-- The event recording one kernel->execute call for a segment: exactly
the five fields length, material, region id and the two cmfd surfaces
(TraverseTracks.cpp lines 144-145). -/
def execEvent (seg : segment) : Event :=
  Event.execute seg._length seg._material seg._region_id
    seg._cmfd_surface_fwd seg._cmfd_surface_bwd

lemma map_getD_range {α β : Type} (l : List α) (d : α) (f : α → β) :
    (List.range l.length).map (fun s => f (l.getD s d)) = l.map f := by
  induction l with
  | nil => simp
  | cons x xs ih =>
    rw [List.length_cons, List.range_succ_eq_map, List.map_cons, List.map_map,
      List.getD_cons_zero, List.map_cons]
    refine congrArg (f x :: ·) ?_
    have hf : ((fun s => f ((x :: xs).getD s d)) ∘ Nat.succ) =
        fun s => f (xs.getD s d) := by
      funext s
      simp [List.getD_cons_succ]
    rw [hf, ih]

lemma traceSegmentsExplicit_eq_map (t : Track) :
    traceSegmentsExplicit t = t.getSegments.map execEvent := by
  have := map_getD_range t.segments default execEvent
  simpa [traceSegmentsExplicit, Track.getNumSegments, Track.getSegment,
    Track.getSegments, execEvent] using this

lemma trackBody_some (t : Track) :
    trackBody (some ()) t =
      Event.newTrack t :: (t.getSegments.map execEvent ++ [Event.onTrack t t.getSegments]) := by
  simp [trackBody, traceSegmentsExplicit_eq_map]

lemma trackBody_none (t : Track) :
    trackBody none t = [Event.onTrack t t.getSegments] := by
  simp [trackBody]

lemma flatMap_singleton_eq_map {α β : Type} (l : List α) (f : α → β) :
    l.flatMap (fun x => [f x]) = l.map f := by
  induction l with
  | nil => rfl
  | cons x xs ih => simp [List.flatMap_cons, ih]

lemma loopOverTracks2D_eq (tt : TraverseTracks) (kernel : MOCKernelPtr) :
    tt.loopOverTracks2D kernel =
      (trackList2D tt._track_generator).flatMap (trackBody kernel) := by
  simp [TraverseTracks.loopOverTracks2D, trackList2D, List.flatMap_assoc,
    List.flatMap_map]

lemma groupStart_zero (tg : TrackGenerator) : groupStart tg 0 = 0 := rfl

lemma groupStart_succ (tg : TrackGenerator) (g : Nat) :
    groupStart tg (g + 1) = groupStart tg g + tg.getNumTracksByParallelGroup g := by
  simp [groupStart, List.range_succ]

lemma parallelGroupLoop_eq_groupTrace (tg : TrackGenerator) (kernel : MOCKernelPtr) :
    ∀ (cnt k : Nat),
      parallelGroupLoop tg kernel (List.range' k cnt) (groupStart tg k) =
        (List.range' k cnt).flatMap (groupTrace tg kernel) := by
  intro cnt
  induction cnt with
  | zero => intro k; rfl
  | succ n ih =>
    intro k
    rw [List.range'_succ]
    rw [List.flatMap_cons]
    show groupTrace tg kernel k ++ parallelGroupLoop tg kernel (List.range' (k + 1) n)
        (groupStart tg k + tg.getNumTracksByParallelGroup k) = _
    rw [← groupStart_succ, ih (k + 1)]

lemma loopOverTracksByParallelGroup2D_eq_groups (tt : TraverseTracks)
    (kernel : MOCKernelPtr) :
    tt.loopOverTracksByParallelGroup2D kernel =
      (List.range tt._track_generator.getNumParallelTrackGroups).flatMap
        (groupTrace tt._track_generator kernel) := by
  rw [TraverseTracks.loopOverTracksByParallelGroup2D, List.range_eq_range']
  have := parallelGroupLoop_eq_groupTrace tt._track_generator kernel
    tt._track_generator.getNumParallelTrackGroups 0
  rwa [groupStart_zero] at this

lemma range'_split (s a b : Nat) (h : a ≤ b) :
    List.range' s b = List.range' s a ++ List.range' (s + a) (b - a) := by
  have h2 := List.range'_append s a (b - a) 1
  rw [one_mul, Nat.sub_add_cancel h] at h2
  exact h2.symm

lemma flatMap_groupTrace_flat (tg : TrackGenerator) (kernel : MOCKernelPtr) :
    ∀ (cnt k : Nat),
      (List.range' k cnt).flatMap (groupTrace tg kernel) =
        (List.range' (groupStart tg k)
            (((List.range' k cnt).map tg.getNumTracksByParallelGroup).sum)).flatMap
          (fun track_id => trackBody kernel (tg.getTracksByParallelGroup track_id)) := by
  intro cnt
  induction cnt with
  | zero => intro k; rfl
  | succ n ih =>
    intro k
    rw [List.range'_succ, List.flatMap_cons, List.map_cons, List.sum_cons,
      range'_split (groupStart tg k) (tg.getNumTracksByParallelGroup k)
        (tg.getNumTracksByParallelGroup k + ((List.range' (k + 1) n).map
          tg.getNumTracksByParallelGroup).sum) (Nat.le_add_right _ _),
      List.flatMap_append, Nat.add_sub_cancel_left, ← groupStart_succ, groupTrace,
      ih (k + 1)]

lemma loopOverTracksByParallelGroup2D_eq (tt : TraverseTracks) (kernel : MOCKernelPtr) :
    tt.loopOverTracksByParallelGroup2D kernel =
      (trackListByGroup tt._track_generator).flatMap (trackBody kernel) := by
  rw [loopOverTracksByParallelGroup2D_eq_groups, List.range_eq_range',
    flatMap_groupTrace_flat, groupStart_zero, trackListByGroup, List.flatMap_map]
  simp [groupTotal, ← List.range_eq_range']

lemma loopOverTracks_dispatch (tg : TrackGenerator) (kernel : MOCKernelPtr)
    (hmode : tg.getSegmentFormation = segmentationType.EXPLICIT_2D) :
    (TraverseTracks.init tg).loopOverTracks kernel =
      (trackList2D tg).flatMap (trackBody kernel) := by
  rw [TraverseTracks.loopOverTracks]
  simp only [TraverseTracks.init, hmode]
  exact loopOverTracks2D_eq _ kernel

lemma loopOverTracksByParallelGroup_dispatch (tg : TrackGenerator)
    (kernel : MOCKernelPtr)
    (hmode : tg.getSegmentFormation = segmentationType.EXPLICIT_2D) :
    (TraverseTracks.init tg).loopOverTracksByParallelGroup kernel =
      (trackListByGroup tg).flatMap (trackBody kernel) := by
  rw [TraverseTracks.loopOverTracksByParallelGroup]
  simp only [TraverseTracks.init, hmode]
  exact loopOverTracksByParallelGroup2D_eq _ kernel

lemma entryTrace_eq (tg : TrackGenerator) (byGroup : Bool) (kernel : MOCKernelPtr)
    (hmode : tg.getSegmentFormation = segmentationType.EXPLICIT_2D) :
    entryTrace tg byGroup kernel = (entryOrder tg byGroup).flatMap (trackBody kernel) := by
  cases byGroup with
  | false =>
    simp only [entryTrace, entryOrder, Bool.false_eq_true, if_false]
    exact loopOverTracks_dispatch tg kernel hmode
  | true =>
    simp only [entryTrace, entryOrder, if_true]
    exact loopOverTracksByParallelGroup_dispatch tg kernel hmode

lemma visitedPairs_append (l1 l2 : List Event) :
    ∀ c, visitedPairs (l1 ++ l2) c = visitedPairs l1 c ++ visitedPairs l2 (curTrack l1 c) := by
  induction l1 with
  | nil => intro c; simp [visitedPairs, curTrack]
  | cons e rest ih =>
    intro c
    cases e with
    | newTrack t => simp [visitedPairs, curTrack, ih]
    | execute l m r f b =>
      cases c with
      | none => simp [visitedPairs, curTrack, ih]
      | some t => simp [visitedPairs, curTrack, ih]
    | onTrack t s => simp [visitedPairs, curTrack, ih]

lemma visitedPairs_execs (l : List segment) (t : Track) :
    visitedPairs (l.map execEvent) (some t) = l.map (fun s => (t, s)) := by
  induction l with
  | nil => rfl
  | cons s rest ih =>
    cases s
    simp [execEvent, visitedPairs, ih]

lemma curTrack_execs (l : List segment) (c : Option Track) :
    curTrack (l.map execEvent) c = c := by
  induction l with
  | nil => rfl
  | cons s rest ih => simp [execEvent, curTrack, ih]

lemma visitedPairs_trackBody (kernel : MOCKernelPtr) (t : Track) (c : Option Track) :
    visitedPairs (trackBody kernel t) c = pairsOf kernel t := by
  cases kernel with
  | none => simp [trackBody_none, visitedPairs, pairsOf]
  | some u =>
    cases u
    rw [trackBody_some]
    simp only [visitedPairs]
    rw [visitedPairs_append, visitedPairs_execs, curTrack_execs]
    simp [visitedPairs, pairsOf]

lemma curTrack_append (l1 l2 : List Event) :
    ∀ c, curTrack (l1 ++ l2) c = curTrack l2 (curTrack l1 c) := by
  induction l1 with
  | nil => intro c; rfl
  | cons e rest ih =>
    intro c
    cases e <;> simp [curTrack, ih]

lemma curTrack_trackBody (kernel : MOCKernelPtr) (t : Track) (c : Option Track) :
    curTrack (trackBody kernel t) c = if kernel.isSome then some t else c := by
  cases kernel with
  | none => simp [trackBody_none, curTrack]
  | some u =>
    cases u
    rw [trackBody_some]
    simp only [curTrack]
    rw [curTrack_append, curTrack_execs]
    simp [curTrack]

lemma visitedPairs_flatMap (kernel : MOCKernelPtr) (visited : List Track) :
    ∀ c, visitedPairs (visited.flatMap (trackBody kernel)) c =
      visited.flatMap (pairsOf kernel) := by
  induction visited with
  | nil => intro c; rfl
  | cons t rest ih =>
    intro c
    rw [List.flatMap_cons, visitedPairs_append, visitedPairs_trackBody,
      List.flatMap_cons, ih]

lemma onTrackList_append (l1 l2 : List Event) :
    onTrackList (l1 ++ l2) = onTrackList l1 ++ onTrackList l2 := by
  simp [onTrackList, List.filterMap_append]

lemma onTrackList_trackBody (kernel : MOCKernelPtr) (t : Track) :
    onTrackList (trackBody kernel t) = [t] := by
  cases kernel with
  | none => simp [trackBody_none, onTrackList]
  | some u =>
    cases u
    rw [trackBody_some]
    simp [onTrackList, List.filterMap_map, Function.comp, execEvent]

lemma onTrackList_flatMap (kernel : MOCKernelPtr) (visited : List Track) :
    onTrackList (visited.flatMap (trackBody kernel)) = visited := by
  induction visited with
  | nil => rfl
  | cons t rest ih =>
    rw [List.flatMap_cons, onTrackList_append, onTrackList_trackBody, ih]
    rfl

lemma count_flatMap {α β : Type} [DecidableEq β] (l : List α) (f : α → List β) (e : β) :
    ((l.flatMap f).count e) = (l.map (fun a => (f a).count e)).sum := by
  induction l with
  | nil => rfl
  | cons a rest ih => simp [List.flatMap_cons, List.count_append, ih]

lemma count_newTrack_trackBody (u t : Track) :
    (trackBody (some ()) u).count (Event.newTrack t) = if u = t then 1 else 0 := by
  rw [trackBody_some]
  rcases eq_or_ne u t with h | h
  · subst h
    rw [if_pos rfl]
    rw [List.count_cons]
    simp only [beq_self_eq_true, if_true]
    rw [List.count_append]
    have h1 : (Event.newTrack u) ∉ u.getSegments.map execEvent := by
      simp [List.mem_map, execEvent]
    have h2 : (Event.newTrack u) ∉ [Event.onTrack u u.getSegments] := by simp
    rw [List.count_eq_zero.mpr h1, List.count_eq_zero.mpr h2]
  · rw [if_neg h]
    apply List.count_eq_zero.mpr
    intro hm
    rcases List.mem_cons.mp hm with hc | hc
    · injection hc with h1
      exact h h1.symm
    · rcases List.mem_append.mp hc with hc2 | hc2
      · rcases List.mem_map.mp hc2 with ⟨s, _, hs⟩
        cases s
        simp [execEvent] at hs
      · simp at hc2

lemma count_onTrack_trackBody (kernel : MOCKernelPtr) (u t : Track) :
    (trackBody kernel u).count (Event.onTrack t t.getSegments) =
      if u = t then 1 else 0 := by
  have hbase : ∀ v : List Event, (∀ e ∈ v, ∃ s, e = execEvent s ∨ e = Event.newTrack u) →
      (v ++ [Event.onTrack u u.getSegments]).count (Event.onTrack t t.getSegments) =
        if u = t then 1 else 0 := by
    intro v hv
    rw [List.count_append]
    have hz : (Event.onTrack t t.getSegments) ∉ v := by
      intro hm
      rcases hv _ hm with ⟨s, hs | hs⟩
      · cases s; simp [execEvent] at hs
      · simp at hs
    rw [List.count_eq_zero.mpr hz, Nat.zero_add]
    rcases eq_or_ne u t with h | h
    · subst h; simp
    · rw [if_neg h]
      apply List.count_eq_zero.mpr
      simp only [List.mem_singleton]
      intro hc
      exact h (by injection hc with h1 h2; exact h1.symm ▸ rfl)
  cases kernel with
  | none =>
    rw [trackBody_none]
    have := hbase [] (by simp)
    simpa using this
  | some w =>
    cases w
    rw [trackBody_some]
    have := hbase (Event.newTrack u :: u.getSegments.map execEvent) (by
      intro e he
      rcases List.mem_cons.mp he with h | h
      · exact ⟨default, Or.inr h⟩
      · rcases List.mem_map.mp h with ⟨s, _, hs⟩
        exact ⟨s, Or.inl hs.symm⟩)
    simpa using this

lemma sum_indicator_count (l : List Track) (t : Track) :
    (l.map (fun u => if u = t then 1 else 0)).sum = l.count t := by
  induction l with
  | nil => rfl
  | cons u rest ih =>
    rw [List.map_cons, List.sum_cons, List.count_cons, ih]
    rcases eq_or_ne u t with h | h
    · subst h; simp [Nat.add_comm]
    · simp [h]

lemma onTrack_mem_trackBody {kernel : MOCKernelPtr} {t u : Track} {s : List segment}
    (h : Event.onTrack t s ∈ trackBody kernel u) : t = u ∧ s = u.getSegments := by
  cases kernel with
  | none =>
    rw [trackBody_none] at h
    rcases List.mem_singleton.mp h with h1
    injection h1 with h1 h2
    exact ⟨h1, h2⟩
  | some w =>
    cases w
    rw [trackBody_some] at h
    rcases List.mem_cons.mp h with hc | hc
    · exact absurd hc (by simp)
    · rcases List.mem_append.mp hc with hc2 | hc2
      · rcases List.mem_map.mp hc2 with ⟨sg, _, hs⟩
        cases sg
        simp [execEvent] at hs
      · rcases List.mem_singleton.mp hc2 with h1
        injection h1 with h1 h2
        exact ⟨h1, h2⟩

lemma onTrack_not_mem_flatMap {kernel : MOCKernelPtr} {v : List Track} {t : Track}
    (h : t ∉ v) (s : List segment) :
    Event.onTrack t s ∉ v.flatMap (trackBody kernel) := by
  intro hm
  rcases List.mem_flatMap.mp hm with ⟨u, hu, hmm⟩
  exact h ((onTrack_mem_trackBody hmm).1 ▸ hu)

lemma pairsOf_fst {kernel : MOCKernelPtr} {u : Track} {p : Track × segment}
    (h : p ∈ pairsOf kernel u) : p.1 = u := by
  cases kernel with
  | none => simp [pairsOf] at h
  | some w =>
    simp only [pairsOf, Option.isSome_some, if_true] at h
    rcases List.mem_map.mp h with ⟨sg, _, hs⟩
    rw [← hs]

lemma filter_pairs_flatMap_ne (kernel : MOCKernelPtr) (v : List Track) (t : Track)
    (h : t ∉ v) :
    (v.flatMap (pairsOf kernel)).filter (fun p => p.1 == t) = [] := by
  apply List.filter_eq_nil_iff.mpr
  intro p hp
  rcases List.mem_flatMap.mp hp with ⟨u, hu, hpu⟩
  have : p.1 = u := pairsOf_fst hpu
  simp only [beq_iff_eq, this]
  intro he
  exact h (he ▸ hu)

lemma filter_pairsOf_self (kernel : MOCKernelPtr) (t : Track) :
    (pairsOf kernel t).filter (fun p => p.1 == t) = pairsOf kernel t := by
  apply List.filter_eq_self.mpr
  intro p hp
  simp [beq_iff_eq, pairsOf_fst hp]

lemma optFlatMap_some {α β : Type} (l : List α) (f : α → Option (List β))
    (g : α → List β) (h : ∀ a ∈ l, f a = some (g a)) :
    optFlatMap l f = some (l.flatMap g) := by
  induction l with
  | nil => rfl
  | cons a rest ih =>
    rw [optFlatMap, h a (List.mem_cons_self a rest),
      ih (fun b hb => h b (List.mem_cons_of_mem a hb)), List.flatMap_cons]

lemma trackBodyDeref_none (t : Track) :
    trackBodyDeref none t = some (trackBody none t) := rfl

lemma loopOverTracks2DDeref_none (tt : TraverseTracks) :
    tt.loopOverTracks2DDeref none = some (tt.loopOverTracks2D none) := by
  rw [TraverseTracks.loopOverTracks2DDeref, TraverseTracks.loopOverTracks2D]
  apply optFlatMap_some
  intro a _
  apply optFlatMap_some
  intro i _
  rfl

lemma parallelGroupLoopDeref_none (tg : TrackGenerator) :
    ∀ (l : List Nat) (m : Nat),
      parallelGroupLoopDeref tg none l m = some (parallelGroupLoop tg none l m) := by
  intro l
  induction l with
  | nil => intro m; rfl
  | cons i rest ih =>
    intro m
    have h1 : optFlatMap (List.range' m (tg.getNumTracksByParallelGroup i))
        (fun track_id => trackBodyDeref none (tg.getTracksByParallelGroup track_id)) =
        some ((List.range' m (tg.getNumTracksByParallelGroup i)).flatMap
          (fun track_id => trackBody none (tg.getTracksByParallelGroup track_id))) :=
      optFlatMap_some _ _ _ (fun _ _ => rfl)
    rw [parallelGroupLoopDeref, parallelGroupLoop, h1, ih]

/-- C1: for every track store whose parallel-group flattening covers the
2D-indexed tracks exactly once (the data-model invariant that the union
of all parallel groups' track ranges covers every track exactly once),
and for any kernel including an absent one, the multiset of
(track, segment) pairs consumed during loopOverTracks equals the
multiset consumed during loopOverTracksByParallelGroup. -/
theorem traversals_visit_same_pairs (tg : TrackGenerator) (kernel : MOCKernelPtr)
    (hcover : List.Perm (trackList2D tg) (trackListByGroup tg)) :
    (visitedPairs ((TraverseTracks.init tg).loopOverTracks kernel) none :
        Multiset (Track × segment)) =
      (visitedPairs ((TraverseTracks.init tg).loopOverTracksByParallelGroup kernel) none :
        Multiset (Track × segment)) := by
  cases hmode : tg.getSegmentFormation with
  | EXPLICIT_2D =>
    rw [loopOverTracks_dispatch tg kernel hmode,
      loopOverTracksByParallelGroup_dispatch tg kernel hmode,
      visitedPairs_flatMap, visitedPairs_flatMap]
    exact Multiset.coe_eq_coe.mpr (hcover.flatMap_right (pairsOf kernel))
  | OTHER =>
    have h1 : (TraverseTracks.init tg).loopOverTracks kernel = [] := by
      rw [TraverseTracks.loopOverTracks]
      simp [TraverseTracks.init, hmode]
    have h2 : (TraverseTracks.init tg).loopOverTracksByParallelGroup kernel = [] := by
      rw [TraverseTracks.loopOverTracksByParallelGroup]
      simp [TraverseTracks.init, hmode]
    rw [h1, h2]

/-- Witness for C1 at the concrete store wStore with a present kernel. -/
theorem traversals_visit_same_pairs_witness :
    List.Perm (trackList2D wStore) (trackListByGroup wStore) ∧
      (visitedPairs ((TraverseTracks.init wStore).loopOverTracks (some ())) none :
          Multiset (Track × segment)) =
        (visitedPairs
            ((TraverseTracks.init wStore).loopOverTracksByParallelGroup (some ())) none :
          Multiset (Track × segment)) :=
  ⟨by decide, traversals_visit_same_pairs wStore (some ()) (by decide)⟩

/-- C4: for a given track and a non-absent kernel, the kernel
application step calls newTrack exactly once with the track reference,
at the head (so before any segment is consumed), then consumes the
track's segments in index-ascending order, each through execEvent with
exactly the five fields, and only afterwards runs the per-track hook. -/
theorem kernel_applied_per_segment (t : Track) :
    trackBody (some ()) t =
      Event.newTrack t ::
        (t.getSegments.map execEvent ++ [Event.onTrack t t.getSegments]) ∧
    (trackBody (some ()) t).count (Event.newTrack t) = 1 := by
  refine ⟨trackBody_some t, ?_⟩
  rw [count_newTrack_trackBody t t]
  simp

/-- C5: under explicit-2D formation, loopOverTracks invokes the hook on
exactly the tracks of trackList2D in that order: azimuthal angle index
ascending over the first half of the angles, position index ascending
within an angle, for any kernel. -/
theorem loopOverTracks_visit_order (tg : TrackGenerator) (kernel : MOCKernelPtr)
    (hmode : tg.getSegmentFormation = segmentationType.EXPLICIT_2D) :
    onTrackList ((TraverseTracks.init tg).loopOverTracks kernel) = trackList2D tg := by
  rw [loopOverTracks_dispatch tg kernel hmode, onTrackList_flatMap]

/-- Witness for C5 at the concrete store wStore with a present kernel. -/
theorem loopOverTracks_visit_order_witness :
    wStore.getSegmentFormation = segmentationType.EXPLICIT_2D ∧
      onTrackList ((TraverseTracks.init wStore).loopOverTracks (some ())) =
        trackList2D wStore :=
  ⟨by decide, loopOverTracks_visit_order wStore (some ()) (by decide)⟩

/-- C6 (evidence for the code defect): at a store with a non-empty
track lattice but an unrecognized segment-formation mode, both entry
points silently produce no events at all -- no error, no kernel call
and no hook call -- instead of the fatal configuration error the spec
requires. -/
theorem unrecognized_mode_silent_noop :
    badStore.getSegmentFormation ≠ segmentationType.EXPLICIT_2D ∧
    trackList2D badStore ≠ [] ∧
    (TraverseTracks.init badStore).loopOverTracks (some ()) = [] ∧
    (TraverseTracks.init badStore).loopOverTracksByParallelGroup (some ()) = [] := by
  exact ⟨by decide, by decide, rfl, rfl⟩

/-- C9: for any explicit-2D store reporting 4 azimuthal angles (so the
first 2 are used) and getNumX(a) + getNumY(a) = 3 tracks for each used
angle, loopOverTracks with a present kernel invokes the per-track hook
exactly 6 times. -/
theorem traverse_all_six_hooks (tg : TrackGenerator)
    (hmode : tg.getSegmentFormation = segmentationType.EXPLICIT_2D)
    (hazim : tg.getNumAzim = 4)
    (hxy : ∀ a, a < 2 → tg.getNumX a + tg.getNumY a = 3) :
    (onTrackList ((TraverseTracks.init tg).loopOverTracks (some ()))).length = 6 := by
  rw [loopOverTracks_dispatch tg _ hmode, onTrackList_flatMap, trackList2D, hazim]
  rw [show (4 : Nat) / 2 = 2 from rfl, show List.range 2 = [0, 1] from rfl]
  simp [hxy 0 (by omega), hxy 1 (by omega)]

/-- Witness for C9 at the concrete store wStore. -/
theorem traverse_all_six_hooks_witness :
    (wStore.getSegmentFormation = segmentationType.EXPLICIT_2D ∧
      wStore.getNumAzim = 4 ∧
      (∀ a, a < 2 → wStore.getNumX a + wStore.getNumY a = 3)) ∧
    (onTrackList ((TraverseTracks.init wStore).loopOverTracks (some ()))).length = 6 :=
  ⟨⟨by decide, by decide, fun a _ => rfl⟩,
    traverse_all_six_hooks wStore (by decide) (by decide) (fun a _ => rfl)⟩

/-- C10: calling either public entry point with a null kernel never
dereferences the null kernel: the dereference-instrumented runs succeed
(return some) and produce exactly the plain traces, for every store. -/
theorem null_kernel_not_dereferenced (tg : TrackGenerator) :
    (TraverseTracks.init tg).loopOverTracksDeref none =
      some ((TraverseTracks.init tg).loopOverTracks none) ∧
    (TraverseTracks.init tg).loopOverTracksByParallelGroupDeref none =
      some ((TraverseTracks.init tg).loopOverTracksByParallelGroup none) := by
  constructor
  · rw [TraverseTracks.loopOverTracksDeref, TraverseTracks.loopOverTracks]
    cases (TraverseTracks.init tg)._segment_formation with
    | EXPLICIT_2D => exact loopOverTracks2DDeref_none _
    | OTHER => rfl
  · rw [TraverseTracks.loopOverTracksByParallelGroupDeref,
      TraverseTracks.loopOverTracksByParallelGroup]
    cases (TraverseTracks.init tg)._segment_formation with
    | EXPLICIT_2D =>
      rw [TraverseTracks.loopOverTracksByParallelGroup2DDeref,
        TraverseTracks.loopOverTracksByParallelGroup2D]
      exact parallelGroupLoopDeref_none _ _ _
    | OTHER => rfl

lemma filter_kernelCall_none (visited : List Track) :
    (visited.flatMap (trackBody none)).filter Event.isKernelCall = [] := by
  apply List.filter_eq_nil_iff.mpr
  intro e he
  rcases List.mem_flatMap.mp he with ⟨u, _, hm⟩
  rw [trackBody_none] at hm
  rw [List.mem_singleton.mp hm]
  simp [Event.isKernelCall]

lemma count_hook_flatMap (kernel : MOCKernelPtr) (visited : List Track) (t : Track)
    (hnd : visited.Nodup) (ht : t ∈ visited) :
    (visited.flatMap (trackBody kernel)).count (Event.onTrack t t.getSegments) = 1 := by
  rw [count_flatMap]
  have hfun : (fun u => (trackBody kernel u).count (Event.onTrack t t.getSegments)) =
      (fun u => if u = t then 1 else 0) :=
    funext (fun u => count_onTrack_trackBody kernel u t)
  rw [hfun, sum_indicator_count]
  exact List.count_eq_one_of_mem hnd ht

lemma count_newTrack_flatMap (visited : List Track) (t : Track)
    (hnd : visited.Nodup) (ht : t ∈ visited) :
    (visited.flatMap (trackBody (some ()))).count (Event.newTrack t) = 1 := by
  rw [count_flatMap]
  have hfun : (fun u => (trackBody (some ()) u).count (Event.newTrack t)) =
      (fun u => if u = t then 1 else 0) :=
    funext (fun u => count_newTrack_trackBody u t)
  rw [hfun, sum_indicator_count]
  exact List.count_eq_one_of_mem hnd ht

lemma filter_pairs_flatMap_mem (kernel : MOCKernelPtr) (visited : List Track) (t : Track)
    (hnd : visited.Nodup) (ht : t ∈ visited) :
    (visited.flatMap (pairsOf kernel)).filter (fun p => p.1 == t) = pairsOf kernel t := by
  rcases List.append_of_mem ht with ⟨v1, v2, hsplit⟩
  rw [hsplit]
  rw [hsplit, List.nodup_middle] at hnd
  rcases List.nodup_cons.mp hnd with ⟨hnotin, _⟩
  have h1 : t ∉ v1 := fun hmem => hnotin (List.mem_append_left v2 hmem)
  have h2 : t ∉ v2 := fun hmem => hnotin (List.mem_append_right v1 hmem)
  rw [List.flatMap_append, List.flatMap_cons, List.filter_append, List.filter_append,
    filter_pairs_flatMap_ne kernel v1 t h1, filter_pairs_flatMap_ne kernel v2 t h2,
    filter_pairsOf_self]
  simp

/-- C7: under explicit-2D formation on a store that enumerates each
track once, a traversal by either entry point with a null kernel makes
no kernel calls at all, yet still invokes the per-track hook exactly
once for every track, with its segment sequence. -/
theorem null_kernel_hook_only (tg : TrackGenerator)
    (hmode : tg.getSegmentFormation = segmentationType.EXPLICIT_2D)
    (hnd2 : (trackList2D tg).Nodup) (hndg : (trackListByGroup tg).Nodup) :
    (((TraverseTracks.init tg).loopOverTracks none).filter Event.isKernelCall = [] ∧
      ∀ t ∈ trackList2D tg,
        ((TraverseTracks.init tg).loopOverTracks none).count
          (Event.onTrack t t.getSegments) = 1) ∧
    (((TraverseTracks.init tg).loopOverTracksByParallelGroup none).filter
        Event.isKernelCall = [] ∧
      ∀ t ∈ trackListByGroup tg,
        ((TraverseTracks.init tg).loopOverTracksByParallelGroup none).count
          (Event.onTrack t t.getSegments) = 1) := by
  rw [loopOverTracks_dispatch tg none hmode,
    loopOverTracksByParallelGroup_dispatch tg none hmode]
  exact ⟨⟨filter_kernelCall_none _, fun t ht => count_hook_flatMap none _ t hnd2 ht⟩,
    ⟨filter_kernelCall_none _, fun t ht => count_hook_flatMap none _ t hndg ht⟩⟩

/-- Witness for C7 at the concrete store wStore. -/
theorem null_kernel_hook_only_witness :
    (wStore.getSegmentFormation = segmentationType.EXPLICIT_2D ∧
      (trackList2D wStore).Nodup ∧ (trackListByGroup wStore).Nodup) ∧
    (((TraverseTracks.init wStore).loopOverTracks none).filter Event.isKernelCall = [] ∧
      ∀ t ∈ trackList2D wStore,
        ((TraverseTracks.init wStore).loopOverTracks none).count
          (Event.onTrack t t.getSegments) = 1) ∧
    (((TraverseTracks.init wStore).loopOverTracksByParallelGroup none).filter
        Event.isKernelCall = [] ∧
      ∀ t ∈ trackListByGroup wStore,
        ((TraverseTracks.init wStore).loopOverTracksByParallelGroup none).count
          (Event.onTrack t t.getSegments) = 1) :=
  ⟨⟨by decide, by decide, by decide⟩,
    null_kernel_hook_only wStore (by decide) (by decide) (by decide)⟩

/-- C8: under explicit-2D formation on a store that enumerates each
track once, a loopOverTracks call with a present kernel still calls
newTrack exactly once for a track whose segment sequence is empty,
consumes no (track, segment) pair for it, and invokes the hook exactly
once for it with the empty segment sequence. -/
theorem empty_track_still_processed (tg : TrackGenerator) (t : Track)
    (hmode : tg.getSegmentFormation = segmentationType.EXPLICIT_2D)
    (hnd : (trackList2D tg).Nodup) (ht : t ∈ trackList2D tg)
    (hempty : t.getSegments = []) :
    ((TraverseTracks.init tg).loopOverTracks (some ())).count (Event.newTrack t) = 1 ∧
    (visitedPairs ((TraverseTracks.init tg).loopOverTracks (some ())) none).filter
      (fun p => p.1 == t) = [] ∧
    ((TraverseTracks.init tg).loopOverTracks (some ())).count (Event.onTrack t []) = 1 := by
  rw [loopOverTracks_dispatch tg _ hmode]
  refine ⟨count_newTrack_flatMap _ _ hnd ht, ?_, ?_⟩
  · rw [visitedPairs_flatMap, filter_pairs_flatMap_mem _ _ _ hnd ht]
    simp [pairsOf, hempty]
  · rw [← hempty]
    exact count_hook_flatMap _ _ t hnd ht

/-- Witness for C8 at the concrete store wStore and its last track,
which has no segments. -/
theorem empty_track_still_processed_witness :
    (wStore.getSegmentFormation = segmentationType.EXPLICIT_2D ∧
      (trackList2D wStore).Nodup ∧ (⟨5, []⟩ : Track) ∈ trackList2D wStore ∧
      (⟨5, []⟩ : Track).getSegments = []) ∧
    ((TraverseTracks.init wStore).loopOverTracks (some ())).count
      (Event.newTrack ⟨5, []⟩) = 1 ∧
    (visitedPairs ((TraverseTracks.init wStore).loopOverTracks (some ())) none).filter
      (fun p => p.1 == (⟨5, []⟩ : Track)) = [] ∧
    ((TraverseTracks.init wStore).loopOverTracks (some ())).count
      (Event.onTrack ⟨5, []⟩ []) = 1 :=
  ⟨⟨by decide, by decide, by decide, rfl⟩,
    empty_track_still_processed wStore ⟨5, []⟩ (by decide) (by decide) (by decide) rfl⟩

/-- C2: under explicit-2D formation on a store that enumerates each
track once, in a single traversal through either entry point and for
any kernel, the trace splits around a unique onTrack event for each
visited track t that receives t and its current segment sequence; no
other hook event for t occurs anywhere, all of t's kernel
segment-consumption calls (its full pairsOf list) have already happened
in the prefix before the hook, and the whole trace consumes exactly
that list for t. -/
theorem hook_once_after_consumption (tg : TrackGenerator) (byGroup : Bool)
    (kernel : MOCKernelPtr) (t : Track)
    (hmode : tg.getSegmentFormation = segmentationType.EXPLICIT_2D)
    (hnd : (entryOrder tg byGroup).Nodup) (ht : t ∈ entryOrder tg byGroup) :
    ∃ pre post,
      entryTrace tg byGroup kernel = pre ++ Event.onTrack t t.getSegments :: post ∧
      (∀ s, Event.onTrack t s ∉ pre) ∧
      (∀ s, Event.onTrack t s ∉ post) ∧
      (visitedPairs pre none).filter (fun p => p.1 == t) = pairsOf kernel t ∧
      (visitedPairs (entryTrace tg byGroup kernel) none).filter (fun p => p.1 == t) =
        pairsOf kernel t := by
  rw [entryTrace_eq tg byGroup kernel hmode]
  rcases List.append_of_mem ht with ⟨v1, v2, hsplit⟩
  rw [hsplit]
  rw [hsplit, List.nodup_middle] at hnd
  rcases List.nodup_cons.mp hnd with ⟨hnotin, _⟩
  have h1 : t ∉ v1 := fun hmem => hnotin (List.mem_append_left v2 hmem)
  have h2 : t ∉ v2 := fun hmem => hnotin (List.mem_append_right v1 hmem)
  have hB : trackBody kernel t =
      (if kernel.isSome then Event.newTrack t :: t.getSegments.map execEvent else []) ++
        [Event.onTrack t t.getSegments] := by
    cases kernel with
    | none => rfl
    | some w =>
      cases w
      rw [trackBody_some]
      simp
  have hXpairs : ∀ c,
      visitedPairs
        (if kernel.isSome then Event.newTrack t :: t.getSegments.map execEvent else []) c =
        pairsOf kernel t := by
    intro c
    cases kernel with
    | none => simp [visitedPairs, pairsOf]
    | some w =>
      cases w
      simp only [Option.isSome_some, if_true, visitedPairs]
      rw [visitedPairs_execs]
      simp [pairsOf]
  have hXnoHook : ∀ s, Event.onTrack t s ∉
      (if kernel.isSome then Event.newTrack t :: t.getSegments.map execEvent else []) := by
    intro s hm
    cases kernel with
    | none => simp at hm
    | some w =>
      simp only [Option.isSome_some, if_true] at hm
      rcases List.mem_cons.mp hm with hc | hc
      · simp at hc
      · rcases List.mem_map.mp hc with ⟨sg, _, hs⟩
        cases sg
        simp [execEvent] at hs
  refine ⟨v1.flatMap (trackBody kernel) ++
      (if kernel.isSome then Event.newTrack t :: t.getSegments.map execEvent else []),
    v2.flatMap (trackBody kernel), ?_, ?_, ?_, ?_, ?_⟩
  · rw [List.flatMap_append, List.flatMap_cons, hB]
    simp [List.append_assoc]
  · intro s hm
    rcases List.mem_append.mp hm with hc | hc
    · exact onTrack_not_mem_flatMap h1 s hc
    · exact hXnoHook s hc
  · intro s hm
    exact onTrack_not_mem_flatMap h2 s hm
  · rw [visitedPairs_append, hXpairs, visitedPairs_flatMap, List.filter_append,
      filter_pairs_flatMap_ne kernel v1 t h1, filter_pairsOf_self]
    simp
  · rw [visitedPairs_flatMap]
    apply filter_pairs_flatMap_mem kernel _ t
    · rw [← hsplit]
      rw [hsplit, List.nodup_middle]
      exact hnd
    · exact List.mem_append_right v1 (List.mem_cons_self t v2)

/-- Witness for C2 at the concrete store wStore, traverse-all entry,
present kernel, first track. -/
theorem hook_once_after_consumption_witness :
    (wStore.getSegmentFormation = segmentationType.EXPLICIT_2D ∧
      (entryOrder wStore false).Nodup ∧
      (⟨1, [⟨3, 12, 102, 9, 10⟩]⟩ : Track) ∈ entryOrder wStore false) ∧
    (∃ pre post,
      entryTrace wStore false (some ()) =
        pre ++ Event.onTrack ⟨1, [⟨3, 12, 102, 9, 10⟩]⟩
          (Track.getSegments ⟨1, [⟨3, 12, 102, 9, 10⟩]⟩) :: post ∧
      (∀ s, Event.onTrack ⟨1, [⟨3, 12, 102, 9, 10⟩]⟩ s ∉ pre) ∧
      (∀ s, Event.onTrack ⟨1, [⟨3, 12, 102, 9, 10⟩]⟩ s ∉ post) ∧
      (visitedPairs pre none).filter
        (fun p => p.1 == (⟨1, [⟨3, 12, 102, 9, 10⟩]⟩ : Track)) =
        pairsOf (some ()) ⟨1, [⟨3, 12, 102, 9, 10⟩]⟩ ∧
      (visitedPairs (entryTrace wStore false (some ())) none).filter
        (fun p => p.1 == (⟨1, [⟨3, 12, 102, 9, 10⟩]⟩ : Track)) =
        pairsOf (some ()) ⟨1, [⟨3, 12, 102, 9, 10⟩]⟩) :=
  ⟨⟨by decide, by decide, by decide⟩,
    hook_once_after_consumption wStore false (some ()) ⟨1, [⟨3, 12, 102, 9, 10⟩]⟩
      (by decide) (by decide) (by decide)⟩

/-- C3: parallel groups are processed strictly one after another in
group order: for any explicit-2D store, any kernel and any two groups
g1 before g2, the trace has a prefix that is exactly the full event
blocks of groups 0 through g1 and, no earlier than its end, a suffix
that is exactly the blocks of the groups from g2 on -- so no event of
group g2 occurs before every event of group g1.  Moreover, in the
concrete scenario of 2 parallel groups of sizes 4 and 5 with an absent
kernel, exactly 9 hook invocations occur, of which the first 4 are the
whole of group 1 and the remaining 5 the whole of group 2. -/
theorem parallel_groups_strictly_ordered :
    (∀ (tg : TrackGenerator) (kernel : MOCKernelPtr) (g1 g2 : Nat),
      tg.getSegmentFormation = segmentationType.EXPLICIT_2D →
      g1 < g2 → g2 < tg.getNumParallelTrackGroups →
      ∃ n m, n ≤ m ∧
        ((TraverseTracks.init tg).loopOverTracksByParallelGroup kernel).take n =
          (List.range (g1 + 1)).flatMap (groupTrace tg kernel) ∧
        ((TraverseTracks.init tg).loopOverTracksByParallelGroup kernel).drop m =
          (List.range' g2 (tg.getNumParallelTrackGroups - g2)).flatMap
            (groupTrace tg kernel)) ∧
    (onTrackList ((TraverseTracks.init sStore).loopOverTracksByParallelGroup none)).length
        = 9 ∧
    ((TraverseTracks.init sStore).loopOverTracksByParallelGroup none).take 4 =
      (List.range 4).map (fun track_id => Event.onTrack ⟨track_id, []⟩ []) ∧
    ((TraverseTracks.init sStore).loopOverTracksByParallelGroup none).drop 4 =
      (List.range' 4 5).map (fun track_id => Event.onTrack ⟨track_id, []⟩ []) := by
  refine ⟨?_, by decide, by decide, by decide⟩
  intro tg kernel g1 g2 hmode h12 h2N
  have hdisp : (TraverseTracks.init tg).loopOverTracksByParallelGroup kernel =
      (List.range tg.getNumParallelTrackGroups).flatMap (groupTrace tg kernel) := by
    rw [TraverseTracks.loopOverTracksByParallelGroup]
    simp only [TraverseTracks.init, hmode]
    exact loopOverTracksByParallelGroup2D_eq_groups _ kernel
  have e0 : (0 : Nat) + (g1 + 1) = g1 + 1 := by omega
  have e1 : g1 + 1 + (g2 - (g1 + 1)) = g2 := by omega
  have e2 : tg.getNumParallelTrackGroups - (g1 + 1) - (g2 - (g1 + 1)) =
      tg.getNumParallelTrackGroups - g2 := by omega
  have hrange : List.range tg.getNumParallelTrackGroups =
      (List.range (g1 + 1) ++ List.range' (g1 + 1) (g2 - (g1 + 1))) ++
        List.range' g2 (tg.getNumParallelTrackGroups - g2) := by
    rw [List.range_eq_range',
      range'_split 0 (g1 + 1) tg.getNumParallelTrackGroups (by omega), e0,
      range'_split (g1 + 1) (g2 - (g1 + 1)) (tg.getNumParallelTrackGroups - (g1 + 1))
        (by omega), e1, e2, ← List.append_assoc, ← List.range_eq_range']
  refine ⟨((List.range (g1 + 1)).flatMap (groupTrace tg kernel)).length,
    ((List.range (g1 + 1)).flatMap (groupTrace tg kernel) ++
      (List.range' (g1 + 1) (g2 - (g1 + 1))).flatMap (groupTrace tg kernel)).length,
    ?_, ?_, ?_⟩
  · rw [List.length_append]
    exact Nat.le_add_right _ _
  · rw [hdisp, hrange, List.flatMap_append, List.flatMap_append, List.append_assoc]
    exact List.take_left _ _
  · rw [hdisp, hrange, List.flatMap_append, List.flatMap_append]
    exact List.drop_left _ _

/-- Witness for C3's general part at the scenario store sStore, absent
kernel, groups 0 and 1. -/
theorem parallel_groups_strictly_ordered_witness :
    (sStore.getSegmentFormation = segmentationType.EXPLICIT_2D ∧ 0 < 1 ∧
      1 < sStore.getNumParallelTrackGroups) ∧
    (∃ n m, n ≤ m ∧
      ((TraverseTracks.init sStore).loopOverTracksByParallelGroup none).take n =
        (List.range (0 + 1)).flatMap (groupTrace sStore none) ∧
      ((TraverseTracks.init sStore).loopOverTracksByParallelGroup none).drop m =
        (List.range' 1 (sStore.getNumParallelTrackGroups - 1)).flatMap
          (groupTrace sStore none)) :=
  ⟨⟨by decide, by decide, by decide⟩,
    parallel_groups_strictly_ordered.1 sStore none 0 1 (by decide) (by decide)
      (by decide)⟩

end OpenMOC
